import Mathlib

/-!
Verification of the reef-imaging orchestrator (`reef_imaging/orchestrator.py`).

This file gives a shallow embedding of the orchestrator's task store, task
scheduler, cycle executor, transport worker and health-check loop, and proves
the specified properties about them.

Modelling conventions:
* Naive-local-time datetimes are modelled as `Nat` (they carry a total order
  and an injective, order-preserving textual form; nothing else about them is
  used by the code under verification).
* Python dicts (`self.tasks`, `new_task_configs`) are modelled as association
  lists with insertion-order semantics: an update replaces the value of the
  first (unique) matching key in place; a new key is appended at the end.
* Python `list.sort()` on datetimes is modelled by `List.insertionSort (· ≤ ·)`,
  which computes the same list (on a linear order a sort is unique up to
  stability, and equal `Nat` keys are indistinguishable).
* Fallible remote calls are modelled by environment records that prescribe the
  outcome of each call; `try/except/finally` blocks become explicit
  state-passing where every exit path of a `try` body performs the `finally`
  update (`tryFinallyClearCritical`).
* A `trace` field on the mutable state records the operations attempted, in
  the order of the corresponding log statements of the source.
-/

namespace Reef

/-- Sorting of datetime lists, modelling Python `list.sort()` on naive datetimes
(`orchestrator.py` lines 142, 148, 327, 330, 376). -/
def sortNat (l : List Nat) : List Nat := List.insertionSort (· ≤ ·) l

/-- Substring test, modelling Python `needle in hay` on strings
(used at `orchestrator.py` lines 678, 741, 1506). -/
def containsSubAux : List Char → List Char → Bool
  | needle, [] => needle.isPrefixOf []
  | needle, c :: rest => needle.isPrefixOf (c :: rest) || containsSubAux needle rest

/-- String containment: `containsSub needle hay` is Python `needle in hay`. -/
def containsSub (needle hay : String) : Bool := containsSubAux needle.toList hay.toList

/-- Suffix test, modelling Python `str.endswith` (`orchestrator.py` lines 680-683). -/
def strEndsWith (s suf : String) : Bool := suf.toList.isSuffixOf s.toList

/-- Robot-arm target id derived from the microscope id string
(`orchestrator.py` lines 677-685 and 740-748). -/
def robotTargetId (micId : String) : Nat :=
  if containsSub "squid+1" micId || containsSub "squid-plus-1" micId then 3
  else if strEndsWith micId "2" then 2
  else if strEndsWith micId "1" then 1
  else 1

/-- Internal parsed task configuration (`parsed_settings_config`,
`orchestrator.py` lines 158-176).  Fields not consulted by any verified
property (dx, dy, scan_timeout, illumination and autofocus payload) are
omitted; they are opaque payload passed through unchanged. -/
structure TaskConfig where
  incubatorSlot : Nat
  allocatedMicroscope : String
  imagingZone : Nat
  nx : Nat
  ny : Nat
  pendingDatetimes : List Nat
  imagedDatetimes : List Nat
deriving DecidableEq, Repr

/-- In-memory task state: one value of `self.tasks` (`orchestrator.py`
lines 219-223). -/
structure TaskState where
  config : TaskConfig
  status : String
deriving DecidableEq, Repr

/-- The in-memory task map `self.tasks`, as an insertion-ordered association
list with unique names. -/
abbrev Tasks := List (String × TaskState)

/-- Replace the value of the first entry with the given key, or append a new
entry — Python `dict.__setitem__` insertion-order semantics. -/
def setTask : Tasks → String → TaskState → Tasks
  | [], n, v => [(n, v)]
  | (k, w) :: rest, n, v =>
    if k = n then (n, v) :: rest else (k, w) :: setTask rest n v

/-- The status-vs-pending fix-up at the end of
`_update_task_state_and_write_config` (`orchestrator.py` lines 382-393): with
no pending points left the status is forced to `completed` unless it is
already `completed` or `uploading`; a requested `completed` with pending
points remaining is reverted to `pending`. -/
def statusFix (newStatus : Option String) (t2 : TaskState) : TaskState :=
  if t2.config.pendingDatetimes = [] then
    if t2.status ≠ "completed" ∧ t2.status ≠ "uploading" then
      { t2 with status := "completed" }
    else t2
  else if newStatus = some "completed" then { t2 with status := "pending" }
  else t2

/-- Per-task update of `_update_task_state_and_write_config`
(`orchestrator.py` lines 363-393): optional status change, optional atomic
transfer of one time point from pending to imaged, then the final
status-vs-pending fix-up. -/
def updateTaskState (t : TaskState) (newStatus : Option String) (tp : Option Nat) :
    TaskState :=
  let t1 : TaskState :=
    match newStatus with
    | some s => if s ≠ "" ∧ t.status ≠ s then { t with status := s } else t
    | none => t
  let t2 : TaskState :=
    match tp with
    | some x =>
      if x ∈ t1.config.pendingDatetimes then
        { t1 with config :=
            { t1.config with
              pendingDatetimes := t1.config.pendingDatetimes.erase x
              imagedDatetimes := sortNat (t1.config.imagedDatetimes ++ [x]) } }
      else t1
    | none => t1
  statusFix newStatus t2

/-- `_update_task_state_and_write_config` on the whole task map: a no-op when
the task name is absent (`orchestrator.py` lines 359-361), otherwise the
per-task update applied to that entry. -/
def updateTask (ts : Tasks) (n : String) (newStatus : Option String) (tp : Option Nat) :
    Tasks :=
  if (ts.lookup n).isSome then
    ts.map (fun p => if p.1 = n then (p.1, updateTaskState p.2 newStatus tp) else p)
  else ts

/-- Raw per-sample `settings` object as stored in `config.json`.
`missingRequiredKey` models a `KeyError` on one of the required settings keys
(`orchestrator.py` lines 178-180); `badTimeString` models a `ValueError` from
`datetime.fromisoformat` on a malformed or timezone-qualified time string
(lines 181-183).  Time-point lists hold the parsed values of the stored
strings (naive ISO-8601 formatting of `Nat` datetimes is injective and
order-preserving, so the strings themselves are not re-modelled). -/
structure RawSettings where
  missingRequiredKey : Bool
  badTimeString : Bool
  pendingTimePoints : List Nat
  imagedTimePoints : List Nat
  incubatorSlot : Nat
  allocatedMicroscope : Option String
  imagingZone : Nat
  nx : Nat
  ny : Nat
deriving DecidableEq, Repr

/-- Raw sample entry of the `samples` list in `config.json`: `name`,
`settings`, and `operational_state.status` when present. -/
structure RawSample where
  name : Option String
  settings : Option RawSettings
  opStatus : Option String
deriving DecidableEq, Repr

/-- Parsing of one sample entry (`orchestrator.py` lines 129-183).
Returns `none` exactly when the source hits `continue`: missing/empty name or
missing settings (lines 133-135), a missing required key (lines 178-180), or a
malformed/timezone-qualified time string (lines 181-183).  Pending and imaged
time points are sorted (lines 142, 148). -/
def parseSample (s : RawSample) : Option (String × TaskConfig) :=
  match s.name, s.settings with
  | some n, some st =>
    if n = "" then none
    else if st.missingRequiredKey || st.badTimeString then none
    else some (n,
      { incubatorSlot := st.incubatorSlot
        allocatedMicroscope := st.allocatedMicroscope.getD "microscope-control-squid-1"
        imagingZone := st.imagingZone
        nx := st.nx
        ny := st.ny
        pendingDatetimes := sortNat st.pendingTimePoints
        imagedDatetimes := sortNat st.imagedTimePoints })
  | _, _ => none

/-- Insert-or-replace in an association list, modelling
`new_task_configs[task_name] = parsed_settings_config` on a Python dict
(`orchestrator.py` line 177). -/
def upsert : List (String × TaskConfig) → String → TaskConfig → List (String × TaskConfig)
  | [], k, v => [(k, v)]
  | (k', v') :: rest, k, v =>
    if k' = k then (k, v) :: rest else (k', v') :: upsert rest k v

/-- One step of building `new_task_configs`: a parsed entry is inserted, a
skipped entry (`continue`) leaves the dict unchanged. -/
def parseStep (acc : List (String × TaskConfig)) (s : RawSample) :
    List (String × TaskConfig) :=
  match parseSample s with
  | some (n, c) => upsert acc n c
  | none => acc

/-- The `new_task_configs` dict built from the file (`orchestrator.py`
lines 129-183). -/
def newTaskConfigs (file : List RawSample) : List (String × TaskConfig) :=
  file.foldl parseStep []

/-- Persisted operational status for a task name: the `operational_state.status`
of the first file entry with that name, defaulting to `"pending"`
(`orchestrator.py` lines 195-201). -/
def findOpStatus (file : List RawSample) (n : String) : String :=
  match file.find? (fun s => s.name = some n) with
  | some s => s.opStatus.getD "pending"
  | none => "pending"

/-- The status derived from the persisted status and the pending set
(`orchestrator.py` lines 203-215). -/
def currentActualStatus (persisted : String) (pending : List Nat) : String :=
  if pending = [] then
    if persisted ≠ "uploading" then "completed" else "uploading"
  else if persisted = "completed" then "pending"
  else persisted

/-- The final per-task fix-up of the reconcile loop (`orchestrator.py`
lines 256-262): a task with no pending points is forced to `completed` unless
its status is `completed` or `uploading`. -/
def forceCompleted (pend : List Nat) (s : String) : String :=
  if pend = [] ∧ s ≠ "completed" ∧ s ≠ "uploading" then "completed" else s

/-- Merge of one parsed entry into the in-memory task map: one iteration of
the `for task_name, current_settings_config in new_task_configs.items()` loop
(`orchestrator.py` lines 194-262), including the significant-change status
resets (lines 226-254) and the final empty-pending fix-up (lines 256-262). -/
def mergeOne (file : List RawSample) (ts : Tasks) (n : String) (cfg : TaskConfig) :
    Tasks :=
  let persisted := findOpStatus file n
  let actual := currentActualStatus persisted cfg.pendingDatetimes
  match ts.lookup n with
  | none =>
    setTask ts n { config := cfg, status := forceCompleted cfg.pendingDatetimes actual }
  | some old =>
    let sigChanged :=
      old.config.pendingDatetimes ≠ cfg.pendingDatetimes ∨
      old.config.imagedDatetimes ≠ cfg.imagedDatetimes ∨
      old.config.incubatorSlot ≠ cfg.incubatorSlot ∨
      old.config.allocatedMicroscope ≠ cfg.allocatedMicroscope ∨
      old.config.imagingZone ≠ cfg.imagingZone ∨
      old.config.nx ≠ cfg.nx ∨ old.config.ny ≠ cfg.ny
    let st1 := actual
    let st2 :=
      if sigChanged ∧ st1 ≠ "pending" ∧ st1 ≠ "completed" then
        if cfg.pendingDatetimes ≠ [] then "pending"
        else if cfg.imagedDatetimes = [] then "completed"
        else st1
      else st1
    setTask ts n { config := cfg, status := forceCompleted cfg.pendingDatetimes st2 }

/-- One fold step of the merge loop over `new_task_configs.items()`. -/
def mergeStep (file : List RawSample) (acc : Tasks) (q : String × TaskConfig) : Tasks :=
  mergeOne file acc q.1 q.2

/-- One written sample entry of `_write_tasks_to_config`
(`orchestrator.py` lines 312-349): critical fields come from the internal
config, time points are written sorted, the status is persisted verbatim. -/
def writeTask (n : String) (t : TaskState) : RawSample :=
  { name := some n
    settings := some
      { missingRequiredKey := false
        badTimeString := false
        pendingTimePoints := sortNat t.config.pendingDatetimes
        imagedTimePoints := sortNat t.config.imagedDatetimes
        incubatorSlot := t.config.incubatorSlot
        allocatedMicroscope := some t.config.allocatedMicroscope
        imagingZone := t.config.imagingZone
        nx := t.config.nx
        ny := t.config.ny }
    opStatus := some t.status }

/-- Full file content written by `_write_tasks_to_config`: one entry per
in-memory task, in task-map order (`orchestrator.py` lines 297-355). -/
def writeTasks (ts : Tasks) : List RawSample := ts.map (fun p => writeTask p.1 p.2)

/-- Result of one reconcile pass: the new task map, the possibly cleared
active-task pointer, and the file content after the conditional write-back. -/
structure ReconcileResult where
  tasks : Tasks
  activeTask : Option String
  fileAfter : List RawSample
deriving DecidableEq, Repr

/-- `_load_and_update_tasks` (`orchestrator.py` lines 110-295): parse the
file, drop in-memory tasks absent from it (clearing the active-task pointer if
it pointed at a dropped task, lines 185-191), merge every parsed entry
(lines 194-262), and write back when anything changed or a task was removed
(lines 294-295).  The microscope-configuration section (lines 264-292) touches
no task state and is not modelled.  The per-task loop always marks the state
as changed when at least one entry is processed (lines 224 and 239). -/
def reconcile (file : List RawSample) (ts : Tasks) (active : Option String) :
    ReconcileResult :=
  let newCfgs := newTaskConfigs file
  let keepNames := newCfgs.map Prod.fst
  let removedNames := (ts.map Prod.fst).filter (fun n => ¬ n ∈ keepNames)
  let active' :=
    match active with
    | some a => if a ∈ removedNames then none else some a
    | none => none
  let ts1 := ts.filter (fun p => p.1 ∈ keepNames)
  let ts2 := newCfgs.foldl (mergeStep file) ts1
  let changed := ¬ newCfgs = []
  let fileAfter := if changed ∨ ¬ removedNames = [] then writeTasks ts2 else file
  { tasks := ts2, activeTask := active', fileAfter := fileAfter }

/-- Mutable orchestrator state shared by the cycle executor and the transport
operations: the process-wide critical-operation flag
(`self.in_critical_operation`), the per-microscope sample-present flag for the
microscope under consideration (`self.sample_on_microscope_flags[mic]`), and a
trace of attempted operations mirroring the log statements of the source. -/
structure SysState where
  inCriticalOperation : Bool
  sampleOnMicroscope : Bool
  trace : List String
deriving DecidableEq, Repr

/-- Errors surfaced by the cycle executor and its sub-operations. -/
inductive CycleError where
  | microscopeNotConnected
  | loadCallFailed
  | unloadCallFailed
  | scanStartFailed
  | scanFailed (msg : String)
  | pollRetriesExhausted
  | scanInputExhausted
deriving DecidableEq, Repr

/-- Explicit `try/finally` around a critical section: whatever the body does,
the critical-operation flag is cleared on exit (`orchestrator.py`
lines 709-712, 800-803, 978-981). -/
def tryFinallyClearCritical (st : SysState)
    (body : SysState → SysState × Except CycleError Unit) :
    SysState × Except CycleError Unit :=
  let r := body st
  ({ r.1 with inCriticalOperation := false }, r.2)

/-- Outcomes of the remote calls made by `_execute_load_operation`
(`orchestrator.py` lines 657-712); `true` means the awaited call returns,
`false` that it raises. -/
structure LoadEnv where
  microscopeConnected : Bool
  getSampleAndHomeOk : Bool
  updateLoc1Ok : Bool
  armMoveOk : Bool
  updateLoc2Ok : Bool
  returnStageOk : Bool
deriving DecidableEq, Repr

/-- Body of the load critical section (`orchestrator.py` lines 674-708): the
sequenced remote calls; on any failure the `except` branch resets the
sample flag and re-raises. -/
def loadBody (env : LoadEnv) (st : SysState) : SysState × Except CycleError Unit :=
  if ¬ env.getSampleAndHomeOk ∨ ¬ env.updateLoc1Ok ∨ ¬ env.armMoveOk ∨
      ¬ env.updateLoc2Ok ∨ ¬ env.returnStageOk then
    ({ st with sampleOnMicroscope := false }, Except.error CycleError.loadCallFailed)
  else
    ({ st with sampleOnMicroscope := true }, Except.ok ())

/-- `_execute_load_operation` (`orchestrator.py` lines 657-712): raises when
the microscope service is missing, is a no-op success when the sample flag is
already set, and otherwise runs the arm move inside the critical section with
a guaranteed flag clear. -/
def executeLoad (env : LoadEnv) (st : SysState) : SysState × Except CycleError Unit :=
  if ¬ env.microscopeConnected then
    (st, Except.error CycleError.microscopeNotConnected)
  else if st.sampleOnMicroscope then
    (st, Except.ok ())
  else
    let st := { st with inCriticalOperation := true, trace := st.trace ++ ["load"] }
    tryFinallyClearCritical st (loadBody env)

/-- Outcomes of the remote calls made by `_execute_unload_operation`
(`orchestrator.py` lines 732-803).  `locationQuery` is the result of
`incubator.get_sample_location`: `none` when the call raises, otherwise the
returned location string. -/
structure UnloadEnv where
  microscopeConnected : Bool
  locationQuery : Option String
  homeOk : Bool
  updateLoc1Ok : Bool
  armMoveOk : Bool
  putAndReturnOk : Bool
  updateLoc2Ok : Bool
deriving DecidableEq, Repr

/-- Body of the unload critical section (`orchestrator.py` lines 777-799). -/
def unloadBody (env : UnloadEnv) (st : SysState) : SysState × Except CycleError Unit :=
  if ¬ env.homeOk ∨ ¬ env.updateLoc1Ok ∨ ¬ env.armMoveOk ∨
      ¬ env.putAndReturnOk ∨ ¬ env.updateLoc2Ok then
    (st, Except.error CycleError.unloadCallFailed)
  else
    ({ st with sampleOnMicroscope := false }, Except.ok ())

/-- `_execute_unload_operation` (`orchestrator.py` lines 732-803): reconciles
the runtime sample flag against the incubator's authoritative location record
(no-op success when the sample is already back in its slot), then moves the
plate inside the critical section with a guaranteed flag clear. -/
def executeUnload (env : UnloadEnv) (micId : String) (st : SysState) :
    SysState × Except CycleError Unit :=
  if ¬ env.microscopeConnected then
    (st, Except.error CycleError.microscopeNotConnected)
  else
    let target := robotTargetId micId
    let expected := "microscope" ++ toString target
    let check : SysState × Bool :=
      match env.locationQuery with
      | some loc =>
        if loc = expected then ({ st with sampleOnMicroscope := true }, false)
        else if loc = "incubator_slot" then
          ({ st with sampleOnMicroscope := false }, true)
        else (st, false)
      | none => (st, false)
    let st := check.1
    if check.2 then (st, Except.ok ())
    else if ¬ st.sampleOnMicroscope then (st, Except.ok ())
    else
      let st := { st with inCriticalOperation := true, trace := st.trace ++ ["unload"] }
      tryFinallyClearCritical st (unloadBody env)

/-- One response of `microscope_service.scan_get_status()`: either the RPC
returns a status payload or it times out / raises. -/
inductive PollResponse where
  | ok (status : String) (error : String)
  | rpcFailure
deriving DecidableEq, Repr

/-- `_poll_scan_status` (`orchestrator.py` lines 805-904) over a prescribed
sequence of poll responses: `completed` returns, `failed` raises with the
reported error, anything else keeps polling with the consecutive-failure
counter reset; an RPC failure increments the counter and raises at the third
consecutive failure.  The wall-clock timeout is not modelled (real time);
exhausting the response sequence is reported as a distinguished error. -/
def pollScan : List PollResponse → Nat → Except CycleError Unit
  | [], _ => Except.error CycleError.scanInputExhausted
  | PollResponse.ok status err :: rest, _ =>
    if status = "completed" then Except.ok ()
    else if status = "failed" then Except.error (CycleError.scanFailed err)
    else pollScan rest 0
  | PollResponse.rpcFailure :: rest, fails =>
    if fails + 1 ≥ 3 then Except.error CycleError.pollRetriesExhausted
    else pollScan rest (fails + 1)

/-- Outcomes of the scan phase of `run_cycle` (`orchestrator.py`
lines 936-981): the well-plate-type query (whose failure only selects the
default `"96"`), the one-shot `scan_start` call, and the poll responses. -/
structure ScanEnv where
  wellPlateTypeOk : Bool
  scanStartOk : Bool
  pollResponses : List PollResponse
deriving DecidableEq, Repr

/-- The scan phase of `run_cycle` (`orchestrator.py` lines 936-981): sets the
critical flag for the duration of `scan_start` and the status polling, with a
guaranteed flag clear. -/
def scanPhase (env : ScanEnv) (st : SysState) : SysState × Except CycleError Unit :=
  let st := { st with inCriticalOperation := true, trace := st.trace ++ ["scan"] }
  tryFinallyClearCritical st (fun st =>
    if ¬ env.scanStartOk then (st, Except.error CycleError.scanStartFailed)
    else
      match pollScan env.pollResponses 0 with
      | Except.ok _ => (st, Except.ok ())
      | Except.error e => (st, Except.error e))

/-- Outcomes of all remote calls of one `run_cycle` execution. -/
structure CycleEnv where
  load : LoadEnv
  scan : ScanEnv
  unload : UnloadEnv
  cleanupUnload : UnloadEnv
deriving DecidableEq, Repr

/-- The `except` branch of `run_cycle` (`orchestrator.py` lines 987-997):
best-effort cleanup unload, then re-raise the original error. -/
def cleanupAndRaise (env : CycleEnv) (micId : String) (st : SysState) (e : CycleError) :
    SysState × Except CycleError Unit :=
  let st := { st with trace := st.trace ++ ["cleanup_unload"] }
  let r := executeUnload env.cleanupUnload micId st
  (r.1, Except.error e)

/-- `run_cycle` (`orchestrator.py` lines 906-997): reset the sample flag, then
load → scan phase → unload; on any failure attempt a cleanup unload and
re-raise the original error. -/
def runCycle (env : CycleEnv) (micId : String) (st : SysState) :
    SysState × Except CycleError Unit :=
  let st := { st with sampleOnMicroscope := false }
  let r1 := executeLoad env.load st
  match r1.2 with
  | Except.error e => cleanupAndRaise env micId r1.1 e
  | Except.ok _ =>
    let r2 := scanPhase env.scan r1.1
    match r2.2 with
    | Except.error e => cleanupAndRaise env micId r2.1 e
    | Except.ok _ =>
      let r3 := executeUnload env.unload micId r2.1
      match r3.2 with
      | Except.error e => cleanupAndRaise env micId r3.1 e
      | Except.ok _ => (r3.1, Except.ok ())

/-- Scheduler reaction to a finished cycle (`orchestrator.py`
lines 1089-1103): on success move the consumed time point to imaged with
status `waiting_for_next_run`; on failure set status `error`. -/
def handleCycleResult (ts : Tasks) (n : String) (tp : Nat) (r : Except CycleError Unit) :
    Tasks :=
  match r with
  | Except.ok _ => updateTask ts n (some "waiting_for_next_run") (some tp)
  | Except.error _ => updateTask ts n (some "error") none

/-- The scheduling candidates of one `run_time_lapse` iteration
(`orchestrator.py` lines 1017-1039): tasks whose status is not terminal for
this tick (`completed`, `error`, `uploading`), that have pending time points,
and whose earliest pending time point is due (`now >= pending[0]`), paired
with that time point, in task-map order. -/
def eligibleTasks (now : Nat) (ts : Tasks) : List (String × Nat) :=
  ts.filterMap (fun p =>
    if p.2.status = "completed" ∨ p.2.status = "error" ∨ p.2.status = "uploading" then
      none
    else
      match p.2.config.pendingDatetimes with
      | [] => none
      | tp :: _ => if now ≥ tp then some (p.1, tp) else none)

/-- Candidate ordering used by the scheduler sort
(`eligible_tasks_for_run.sort(key=lambda x: x[1])`). -/
def byTimePoint : (String × Nat) → (String × Nat) → Prop := fun a b => a.2 ≤ b.2

instance : DecidableRel byTimePoint :=
  fun a b => inferInstanceAs (Decidable (a.2 ≤ b.2))

instance : IsTotal (String × Nat) byTimePoint := ⟨fun a b => Nat.le_total a.2 b.2⟩

instance : IsTrans (String × Nat) byTimePoint := ⟨fun _ _ _ => Nat.le_trans⟩

/-- Task selection of `run_time_lapse` (`orchestrator.py` lines 1041-1045):
sort the candidates by their due time point and take the first. -/
def selectNextTask (now : Nat) (ts : Tasks) : Option (String × Nat) :=
  (List.insertionSort byTimePoint (eligibleTasks now ts)).head?

/-- Action taken by one iteration of the health-check loop on a failure or
success (`check_service_health`, `orchestrator.py` lines 398-475). -/
inductive HealthAction where
  | healthy
  | criticalRetry (delay : Nat)
  | exitProgram
  | refreshedAndContinue
  | refreshRetry
deriving DecidableEq, Repr

/-- One iteration of the `while True` loop of `check_service_health`
(`orchestrator.py` lines 410-475), as a function of the current
consecutive-failure count and this iteration's outcomes: whether the ping
succeeds, whether the system is in a critical operation, and whether a proxy
refresh would succeed.  Returns the new failure count and the action taken. -/
def healthStep (failures : Nat) (pingOk critical refreshOk : Bool) :
    Nat × HealthAction :=
  if pingOk then (0, HealthAction.healthy)
  else
    let f := failures + 1
    if critical then
      if f ≥ 3 then (f, HealthAction.exitProgram)
      else (f, HealthAction.criticalRetry (10 * f))
    else
      if refreshOk then (0, HealthAction.refreshedAndContinue)
      else if f ≥ 3 then (f, HealthAction.exitProgram)
      else (f, HealthAction.refreshRetry)

/-- Iterated health-check loop over a sequence of per-iteration outcomes
`(pingOk, critical, refreshOk)`; `sys.exit` terminates the loop. -/
def healthTrace (failures : Nat) : List (Bool × Bool × Bool) → List (Nat × HealthAction)
  | [] => []
  | (p, c, r) :: rest =>
    let s := healthStep failures p c r
    if s.2 = HealthAction.exitProgram then [s]
    else s :: healthTrace s.1 rest

/-- A queued transport request (`orchestrator.py` lines 646-652): action,
incubator slot, target microscope id (`none` models a malformed queue item
missing its microscope id). -/
structure TransportRequest where
  action : String
  incubatorSlot : Nat
  microscopeId : Option String
deriving DecidableEq, Repr

/-- A resolution of a transport request's completion future: `set_result` or
`set_exception`. -/
inductive Resolution where
  | success
  | failure (msg : String)
deriving DecidableEq, Repr

instance {ε α : Type} [DecidableEq ε] [DecidableEq α] : DecidableEq (Except ε α) :=
  fun a b =>
  match a, b with
  | Except.ok x, Except.ok y =>
    if h : x = y then isTrue (h ▸ rfl)
    else isFalse (fun hh => h (by cases hh; rfl))
  | Except.ok _, Except.error _ => isFalse (fun h => Except.noConfusion h)
  | Except.error _, Except.ok _ => isFalse (fun h => Except.noConfusion h)
  | Except.error x, Except.error y =>
    if h : x = y then isTrue (h ▸ rfl)
    else isFalse (fun hh => h (by cases hh; rfl))

/-- Outcomes of the environment during the processing of one transport
request: whether connection setup is needed and whether it raises, whether the
target microscope service is connected afterwards, and the outcome of the
load/unload operation itself. -/
structure ReqEnv where
  needSetup : Bool
  setupRaises : Bool
  serviceConnected : Bool
  opResult : Except String Unit
deriving DecidableEq, Repr

/-- Processing of one dequeued transport request by `_transport_worker_loop`
(`orchestrator.py` lines 1140-1187), returning the list of resolutions applied
to the request's completion future: missing microscope id, failed connection
setup, missing service, unknown action and a failed operation each resolve it
with the error; a successful operation resolves it with success. -/
def processRequest (req : TransportRequest) (env : ReqEnv) : List Resolution :=
  match req.microscopeId with
  | none => [Resolution.failure "missing microscope_id"]
  | some _ =>
    if env.needSetup ∧ env.setupRaises then
      [Resolution.failure "setup_connections failed"]
    else if ¬ env.serviceConnected then
      [Resolution.failure "microscope service not connected"]
    else if req.action = "load" ∨ req.action = "unload" then
      match env.opResult with
      | Except.ok _ => [Resolution.success]
      | Except.error e => [Resolution.failure e]
    else [Resolution.failure "unknown transport action"]

/-- The transport worker loop (`orchestrator.py` lines 1127-1193) over the
queued requests, with cooperative cancellation (`_stop_transport_worker`,
lines 1202-1213) firing at the queue-get suspension point after `cancelAfter`
requests have been processed: the worker breaks out of its loop and any
request still in the queue is never dequeued.  Returns the per-dequeued-request
resolution lists, in order. -/
def workerLoop : List (TransportRequest × ReqEnv) → Nat → List (List Resolution)
  | [], _ => []
  | _, 0 => []
  | (req, env) :: rest, Nat.succ k => processRequest req env :: workerLoop rest k

/-- `process_timelapse_offline_api` (`orchestrator.py` lines 1500-1543): pin
every task whose name contains the experiment id to `uploading`, delegate to
the microscope collaborator, then set the matching tasks' status to
`completed` on success and `error` on failure (each through
`_update_task_state_and_write_config`). -/
def processTimelapseOffline (experimentId : String) (ts : Tasks)
    (microscopeAvailable : Bool) (callResult : Except String Unit) :
    Tasks × Bool :=
  let matching := (ts.map Prod.fst).filter (fun n => containsSub experimentId n)
  if matching = [] then (ts, false)
  else
    let ts1 := matching.foldl (fun acc n => updateTask acc n (some "uploading") none) ts
    if ¬ microscopeAvailable then
      (matching.foldl (fun acc n => updateTask acc n (some "error") none) ts1, false)
    else
      match callResult with
      | Except.ok _ =>
        (matching.foldl (fun acc n => updateTask acc n (some "completed") none) ts1, true)
      | Except.error _ =>
        (matching.foldl (fun acc n => updateTask acc n (some "error") none) ts1, false)

/-! ### Invariant predicates and concrete fixtures -/

/-- The empty-pending status invariant of spec §8: a task with no pending
points is observed only as `completed` or `uploading`. -/
def statusInvariant (t : TaskState) : Prop :=
  t.config.pendingDatetimes = [] → t.status = "completed" ∨ t.status = "uploading"

/-- Well-formedness of one in-memory task: sorted time-point lists and the
status/pending consistency that the reconcile and update paths maintain. -/
def wellFormedTask (t : TaskState) : Prop :=
  sortNat t.config.pendingDatetimes = t.config.pendingDatetimes ∧
  sortNat t.config.imagedDatetimes = t.config.imagedDatetimes ∧
  (t.status = "completed" → t.config.pendingDatetimes = []) ∧
  (t.config.pendingDatetimes = [] →
    t.status = "completed" ∨ t.status = "uploading")

instance (t : TaskState) : Decidable (wellFormedTask t) := by
  unfold wellFormedTask
  infer_instance

/-- Well-formedness of the task map: unique non-empty names, each task
well formed. -/
def wellFormed (ts : Tasks) : Prop :=
  (ts.map Prod.fst).Nodup ∧ ∀ p ∈ ts, p.1 ≠ "" ∧ wellFormedTask p.2

instance (ts : Tasks) : Decidable (wellFormed ts) := by
  unfold wellFormed
  infer_instance

/-- A concrete task configuration with two pending points and one imaged. -/
def witnessConfig : TaskConfig :=
  { incubatorSlot := 5
    allocatedMicroscope := "microscope-control-squid-1"
    imagingZone := 0
    nx := 2
    ny := 2
    pendingDatetimes := [10, 20]
    imagedDatetimes := [7] }

/-- A concrete active task over `witnessConfig`. -/
def witnessTask : TaskState := { config := witnessConfig, status := "active" }

/-- A concrete idle system state. -/
def witnessState : SysState :=
  { inCriticalOperation := false, sampleOnMicroscope := false, trace := [] }

/-- A load environment whose arm move fails. -/
def witnessLoadEnv : LoadEnv :=
  { microscopeConnected := true
    getSampleAndHomeOk := true
    updateLoc1Ok := true
    armMoveOk := false
    updateLoc2Ok := true
    returnStageOk := true }

/-- An unload environment whose location query reports the plate still on the
microscope and whose calls all succeed. -/
def witnessUnloadEnv : UnloadEnv :=
  { microscopeConnected := true
    locationQuery := some "microscope1"
    homeOk := true
    updateLoc1Ok := true
    armMoveOk := true
    putAndReturnOk := true
    updateLoc2Ok := true }

/-- A scan environment that reports `failed` on the third poll. -/
def witnessScanEnv : ScanEnv :=
  { wellPlateTypeOk := true
    scanStartOk := true
    pollResponses :=
      [PollResponse.ok "running" "", PollResponse.ok "running" "",
       PollResponse.ok "failed" "laser fault"] }

/-- A load environment in which every remote call succeeds. -/
def witnessLoadEnvOk : LoadEnv :=
  { microscopeConnected := true
    getSampleAndHomeOk := true
    updateLoc1Ok := true
    armMoveOk := true
    updateLoc2Ok := true
    returnStageOk := true }

/-- A cycle environment: load succeeds, the scan reports `failed` on the third
poll, unload succeeds. -/
def witnessCycleEnv : CycleEnv :=
  { load := witnessLoadEnvOk
    scan := witnessScanEnv
    unload := witnessUnloadEnv
    cleanupUnload := witnessUnloadEnv }

/-- A one-task map holding `witnessTask` under the name `T1`. -/
def witnessTasksT1 : Tasks := [("T1", witnessTask)]

/-- A well-formed transport request for slot 5. -/
def witnessRequest : TransportRequest :=
  { action := "load", incubatorSlot := 5,
    microscopeId := some "microscope-control-squid-1" }

/-- A transport environment in which everything succeeds. -/
def witnessReqEnv : ReqEnv :=
  { needSetup := false, setupRaises := false, serviceConnected := true,
    opResult := Except.ok () }

/-- A finished task (empty pending set) whose name contains the experiment id
`exp1`. -/
def uploadTask : TaskState :=
  { config :=
      { incubatorSlot := 5
        allocatedMicroscope := "microscope-control-squid-1"
        imagingZone := 0
        nx := 2
        ny := 2
        pendingDatetimes := []
        imagedDatetimes := [7] }
    status := "completed" }

/-- A one-task map holding the finished task under the name `exp1-A`. -/
def uploadTasks : Tasks := [("exp1-A", uploadTask)]

/-- A task map in file order `b` (due at 20) before `a` (due at 10), both
schedulable. -/
def witnessSchedTasks : Tasks :=
  [("b", { config := { witnessConfig with pendingDatetimes := [20] }, status := "pending" }),
   ("a", { config := { witnessConfig with pendingDatetimes := [10] }, status := "pending" })]

/-- A malformed config-file sample entry: name `sample-x`, settings present
but missing a required key. -/
def malformedSample : RawSample :=
  { name := some "sample-x"
    settings := some
      { missingRequiredKey := true
        badTimeString := false
        pendingTimePoints := [3]
        imagedTimePoints := []
        incubatorSlot := 1
        allocatedMicroscope := some "microscope-control-squid-1"
        imagingZone := 0
        nx := 1
        ny := 1 }
    opStatus := some "pending" }

/-- A config file holding only the malformed entry. -/
def malformedFile : List RawSample := [malformedSample]

/-- A one-task map holding a task named after the malformed entry. -/
def tasksWithX : Tasks := [("sample-x", witnessTask)]

/-! ### Association-list helper lemmas -/

theorem lookup_cons (k : String) (w : TaskState) (rest : Tasks) (n : String) :
    ((k, w) :: rest).lookup n = if n = k then some w else rest.lookup n := by
  by_cases h : n = k
  · simp [List.lookup, h]
  · have hb : (n == k) = false := by simp [h]
    simp [List.lookup, hb, h]

theorem lookup_eq_some_of_mem {ts : Tasks} {n : String} {t : TaskState}
    (hnd : (ts.map Prod.fst).Nodup) (hmem : (n, t) ∈ ts) :
    ts.lookup n = some t := by
  induction ts with
  | nil => cases hmem
  | cons p rest ih =>
    rcases p with ⟨k, w⟩
    simp only [List.map_cons, List.nodup_cons] at hnd
    rw [lookup_cons]
    rcases List.mem_cons.mp hmem with h | h
    · cases h
      simp
    · have hk : n ≠ k := by
        intro hkn
        subst hkn
        exact hnd.1 (List.mem_map.mpr ⟨(n, t), h, rfl⟩)
      rw [if_neg hk]
      exact ih hnd.2 h

theorem lookup_eq_none_of_not_mem {ts : Tasks} {n : String}
    (h : n ∉ ts.map Prod.fst) : ts.lookup n = none := by
  induction ts with
  | nil => rfl
  | cons p rest ih =>
    rcases p with ⟨k, w⟩
    simp only [List.map_cons, List.mem_cons] at h
    push_neg at h
    rw [lookup_cons, if_neg h.1]
    exact ih h.2

theorem mem_setTask {ts : Tasks} {n : String} {v : TaskState} {p : String × TaskState}
    (h : p ∈ setTask ts n v) : p = (n, v) ∨ p ∈ ts := by
  induction ts with
  | nil =>
    simp only [setTask, List.mem_singleton] at h
    exact Or.inl h
  | cons q rest ih =>
    rcases q with ⟨k, w⟩
    by_cases hk : k = n
    · subst hk
      simp only [setTask, if_pos rfl] at h
      rcases List.mem_cons.mp h with h | h
      · exact Or.inl h
      · exact Or.inr (List.mem_cons_of_mem _ h)
    · simp only [setTask, if_neg hk] at h
      rcases List.mem_cons.mp h with h | h
      · exact Or.inr (h ▸ List.mem_cons_self _ _)
      · rcases ih h with h | h
        · exact Or.inl h
        · exact Or.inr (List.mem_cons_of_mem _ h)

theorem keys_setTask_subset {ts : Tasks} {n : String} {v : TaskState} {m : String}
    (h : m ∈ (setTask ts n v).map Prod.fst) : m ∈ ts.map Prod.fst ∨ m = n := by
  rcases List.mem_map.mp h with ⟨p, hp, hpm⟩
  rcases mem_setTask hp with h1 | h1
  · subst h1
    exact Or.inr hpm.symm
  · exact Or.inl (hpm ▸ List.mem_map.mpr ⟨p, h1, rfl⟩)

theorem keys_setTask_of_mem {ts : Tasks} {n : String} {v : TaskState}
    (h : n ∈ ts.map Prod.fst) :
    (setTask ts n v).map Prod.fst = ts.map Prod.fst := by
  induction ts with
  | nil => cases h
  | cons q rest ih =>
    rcases q with ⟨k, w⟩
    by_cases hk : k = n
    · subst hk
      simp [setTask]
    · simp only [List.map_cons, List.mem_cons] at h
      rcases h with h | h
      · exact absurd h.symm hk
      · simp [setTask, if_neg hk, ih h]

theorem nodup_keys_setTask {ts : Tasks} {n : String} {v : TaskState}
    (hnd : (ts.map Prod.fst).Nodup) :
    ((setTask ts n v).map Prod.fst).Nodup := by
  induction ts with
  | nil => simp [setTask]
  | cons q rest ih =>
    rcases q with ⟨k, w⟩
    simp only [List.map_cons, List.nodup_cons] at hnd
    by_cases hk : k = n
    · subst hk
      have hrw : setTask ((k, w) :: rest) k v = (k, v) :: rest := by simp [setTask]
      rw [hrw]
      simp only [List.map_cons, List.nodup_cons]
      exact ⟨hnd.1, hnd.2⟩
    · simp only [setTask, if_neg hk, List.map_cons, List.nodup_cons]
      refine ⟨fun hmem => ?_, ih hnd.2⟩
      rcases keys_setTask_subset hmem with h | h
      · exact hnd.1 h
      · exact hk h

theorem eq_of_mem_setTask_of_key {ts : Tasks} {n : String} {v : TaskState}
    {p : String × TaskState} (hnd : (ts.map Prod.fst).Nodup)
    (h : p ∈ setTask ts n v) (hp : p.1 = n) : p = (n, v) := by
  induction ts with
  | nil =>
    simp only [setTask, List.mem_singleton] at h
    exact h
  | cons q rest ih =>
    rcases q with ⟨k, w⟩
    simp only [List.map_cons, List.nodup_cons] at hnd
    by_cases hk : k = n
    · subst hk
      simp only [setTask, if_pos rfl] at h
      rcases List.mem_cons.mp h with h | h
      · exact h
      · exfalso
        apply hnd.1
        have hmem : p.1 ∈ rest.map Prod.fst := List.mem_map.mpr ⟨p, h, rfl⟩
        exact hp ▸ hmem
    · simp only [setTask, if_neg hk] at h
      rcases List.mem_cons.mp h with h | h
      · exfalso
        apply hk
        have : p.1 = k := by rw [h]
        rw [← this, hp]
      · exact ih hnd.2 h

theorem setTask_eq_self {ts : Tasks} {n : String} {t : TaskState}
    (hnd : (ts.map Prod.fst).Nodup) (hmem : (n, t) ∈ ts) :
    setTask ts n t = ts := by
  induction ts with
  | nil => cases hmem
  | cons q rest ih =>
    rcases q with ⟨k, w⟩
    simp only [List.map_cons, List.nodup_cons] at hnd
    rcases List.mem_cons.mp hmem with h | h
    · cases h
      simp [setTask]
    · have hk : k ≠ n := by
        intro hkn
        subst hkn
        exact hnd.1 (List.mem_map.mpr ⟨(k, t), h, rfl⟩)
      simp [setTask, if_neg hk, ih hnd.2 h]

/-! ### `updateTaskState` characterisation lemmas -/

theorem mem_sortNat {l : List Nat} {x : Nat} : x ∈ sortNat l ↔ x ∈ l :=
  List.mem_insertionSort _

theorem statusFix_config (s : Option String) (t2 : TaskState) :
    (statusFix s t2).config = t2.config := by
  unfold statusFix
  split_ifs <;> rfl

theorem statusFix_of_uploading (s : Option String) (c : TaskConfig)
    (hs : s ≠ some "completed") :
    statusFix s { config := c, status := "uploading" } =
      { config := c, status := "uploading" } := by
  unfold statusFix
  split_ifs <;> simp_all

theorem statusFix_completed_val (c : TaskConfig) :
    statusFix (some "completed") { config := c, status := "completed" } =
      { config := c
        status := if c.pendingDatetimes = [] then "completed" else "pending" } := by
  unfold statusFix
  split_ifs <;> simp_all

theorem statusFix_error_val (c : TaskConfig) :
    statusFix (some "error") { config := c, status := "error" } =
      { config := c
        status := if c.pendingDatetimes = [] then "completed" else "error" } := by
  unfold statusFix
  split_ifs <;> simp_all

theorem updateTaskState_config_of_mem {t : TaskState} {x : Nat} (s : Option String)
    (h : x ∈ t.config.pendingDatetimes) :
    (updateTaskState t s (some x)).config =
      { t.config with
        pendingDatetimes := t.config.pendingDatetimes.erase x
        imagedDatetimes := sortNat (t.config.imagedDatetimes ++ [x]) } := by
  rcases t with ⟨c, st⟩
  rcases s with _ | s <;>
    simp only [updateTaskState, statusFix_config] <;> (try split_ifs) <;> simp_all

theorem updateTaskState_config_of_not_mem {t : TaskState} {x : Nat} (s : Option String)
    (h : x ∉ t.config.pendingDatetimes) :
    (updateTaskState t s (some x)).config = t.config := by
  rcases t with ⟨c, st⟩
  rcases s with _ | s <;>
    simp only [updateTaskState, statusFix_config] <;> (try split_ifs) <;> simp_all

theorem updateTaskState_config_none (t : TaskState) (s : Option String) :
    (updateTaskState t s none).config = t.config := by
  rcases t with ⟨c, st⟩
  rcases s with _ | s <;>
    simp only [updateTaskState, statusFix_config] <;> (try split_ifs) <;> simp_all

theorem statusFix_invariant (s : Option String) (t2 : TaskState)
    (h : (statusFix s t2).config.pendingDatetimes = []) :
    (statusFix s t2).status = "completed" ∨ (statusFix s t2).status = "uploading" := by
  unfold statusFix at h ⊢
  split_ifs at h ⊢ <;> simp_all <;> tauto

theorem updateTaskState_invariant (t : TaskState) (s : Option String) (tp : Option Nat)
    (h : (updateTaskState t s tp).config.pendingDatetimes = []) :
    (updateTaskState t s tp).status = "completed" ∨
      (updateTaskState t s tp).status = "uploading" := by
  unfold updateTaskState at h ⊢
  exact statusFix_invariant _ _ h

theorem updateTaskState_uploading (t : TaskState) :
    updateTaskState t (some "uploading") none =
      { config := t.config, status := "uploading" } := by
  rcases t with ⟨c, st⟩
  simp only [updateTaskState]
  split_ifs <;> simp_all [statusFix_of_uploading]

theorem updateTaskState_completed (t : TaskState) :
    updateTaskState t (some "completed") none =
      { config := t.config
        status := if t.config.pendingDatetimes = [] then "completed" else "pending" } := by
  rcases t with ⟨c, st⟩
  simp only [updateTaskState]
  split_ifs <;> simp_all [statusFix_completed_val]

theorem updateTaskState_error (t : TaskState) :
    updateTaskState t (some "error") none =
      { config := t.config
        status := if t.config.pendingDatetimes = [] then "completed" else "error" } := by
  rcases t with ⟨c, st⟩
  simp only [updateTaskState]
  split_ifs <;> simp_all [statusFix_error_val]

/-! ### `updateTask` lemmas on the task map -/

theorem keys_map_update (ts : Tasks) (n : String) (g : TaskState → TaskState) :
    ((ts.map fun p => if p.1 = n then (p.1, g p.2) else p).map Prod.fst) =
      ts.map Prod.fst := by
  induction ts with
  | nil => rfl
  | cons q rest ih =>
    rcases q with ⟨k, w⟩
    by_cases hk : k = n <;> simp [hk, ih]

theorem lookup_map_update_self (ts : Tasks) (n : String) (g : TaskState → TaskState) :
    (ts.map fun p => if p.1 = n then (p.1, g p.2) else p).lookup n =
      (ts.lookup n).map g := by
  induction ts with
  | nil => rfl
  | cons q rest ih =>
    rcases q with ⟨k, w⟩
    by_cases hk : k = n
    · subst hk
      simp [lookup_cons, ih]
    · simp [lookup_cons, hk, Ne.symm hk, ih]

theorem lookup_map_update_other (ts : Tasks) (n m : String) (g : TaskState → TaskState)
    (hm : m ≠ n) :
    (ts.map fun p => if p.1 = n then (p.1, g p.2) else p).lookup m = ts.lookup m := by
  induction ts with
  | nil => rfl
  | cons q rest ih =>
    rcases q with ⟨k, w⟩
    by_cases hk : k = n
    · subst hk
      simp [lookup_cons, hm, ih]
    · simp [lookup_cons, hk, ih]

theorem keys_updateTask (ts : Tasks) (n : String) (s : Option String) (tp : Option Nat) :
    (updateTask ts n s tp).map Prod.fst = ts.map Prod.fst := by
  unfold updateTask
  split_ifs
  · exact keys_map_update ts n (fun w => updateTaskState w s tp)
  · rfl

theorem lookup_updateTask_self {ts : Tasks} {n : String} {t : TaskState}
    (s : Option String) (tp : Option Nat) (h : ts.lookup n = some t) :
    (updateTask ts n s tp).lookup n = some (updateTaskState t s tp) := by
  unfold updateTask
  rw [if_pos (by simp [h]), lookup_map_update_self ts n (fun w => updateTaskState w s tp), h]
  rfl

theorem lookup_updateTask_other {ts : Tasks} {n m : String}
    (s : Option String) (tp : Option Nat) (hm : m ≠ n) :
    (updateTask ts n s tp).lookup m = ts.lookup m := by
  unfold updateTask
  split_ifs
  · exact lookup_map_update_other ts n m (fun w => updateTaskState w s tp) hm
  · rfl

theorem mem_updateTask {ts : Tasks} {n : String} {s : Option String} {tp : Option Nat}
    {p : String × TaskState} (h : p ∈ updateTask ts n s tp) :
    p ∈ ts ∨ ∃ q ∈ ts, p = (q.1, updateTaskState q.2 s tp) := by
  unfold updateTask at h
  split_ifs at h
  · rcases List.mem_map.mp h with ⟨q, hq, hpq⟩
    by_cases hk : q.1 = n
    · rw [if_pos hk] at hpq
      exact Or.inr ⟨q, hq, hpq.symm⟩
    · rw [if_neg hk] at hpq
      exact Or.inl (hpq ▸ hq)
  · exact Or.inl h

theorem lookup_foldl_updateTask_not_mem (names : List String) (ts : Tasks)
    (s : Option String) (tp : Option Nat) {n : String} (h : n ∉ names) :
    (names.foldl (fun acc m => updateTask acc m s tp) ts).lookup n = ts.lookup n := by
  induction names generalizing ts with
  | nil => rfl
  | cons m rest ih =>
    simp only [List.mem_cons] at h
    push_neg at h
    rw [List.foldl_cons, ih _ h.2, lookup_updateTask_other s tp h.1]

theorem lookup_foldl_updateTask_mem (names : List String) (ts : Tasks)
    (s : Option String) (tp : Option Nat) {n : String} {t : TaskState}
    (hnd : names.Nodup) (hn : n ∈ names) (h : ts.lookup n = some t) :
    (names.foldl (fun acc m => updateTask acc m s tp) ts).lookup n =
      some (updateTaskState t s tp) := by
  induction names generalizing ts t with
  | nil => cases hn
  | cons m rest ih =>
    simp only [List.nodup_cons] at hnd
    rw [List.foldl_cons]
    rcases List.mem_cons.mp hn with hnm | hnm
    · subst hnm
      rw [lookup_foldl_updateTask_not_mem rest _ s tp hnd.1]
      exact lookup_updateTask_self s tp h
    · have hne : n ≠ m := fun hEq => hnd.1 (hEq ▸ hnm)
      apply ih _ hnd.2 hnm
      rw [lookup_updateTask_other s tp hne]
      exact h

/-! ### Cycle-executor helper lemmas -/

theorem scanPhase_snd (env : ScanEnv) (st : SysState) (hstart : env.scanStartOk = true) :
    (scanPhase env st).2 = pollScan env.pollResponses 0 := by
  unfold scanPhase tryFinallyClearCritical
  rw [hstart]
  rcases pollScan env.pollResponses 0 with e | u
  · simp
  · cases u
    simp

theorem executeUnload_trace (env : UnloadEnv) (micId : String) (st : SysState) :
    (executeUnload env micId st).1.trace = st.trace ∨
      (executeUnload env micId st).1.trace = st.trace ++ ["unload"] := by
  unfold executeUnload tryFinallyClearCritical unloadBody
  rcases env with ⟨mc, lq, e1, e2, e3, e4, e5⟩
  rcases lq with _ | loc <;> simp only [] <;> split_ifs <;> simp_all

theorem cleanupAndRaise_spec (env : CycleEnv) (micId : String) (st : SysState)
    (e : CycleError) :
    (cleanupAndRaise env micId st e).2 = Except.error e ∧
      "cleanup_unload" ∈ (cleanupAndRaise env micId st e).1.trace := by
  unfold cleanupAndRaise
  refine ⟨rfl, ?_⟩
  rcases executeUnload_trace env.cleanupUnload micId
      { st with trace := st.trace ++ ["cleanup_unload"] } with h | h <;>
    simp [h]

/-! ### Claim theorems -/

/-- C2: for a task whose pending and imaged time-point sets are disjoint (and
whose pending list is duplicate-free, i.e. a set), any
`_update_task_state_and_write_config` call that passes a time point to be
marked imaged preserves disjointness; the time point is moved from pending to
imaged as a single atomic transfer, and if it was not pending both sets are
unchanged. -/
theorem update_task_moves_point_atomically (t : TaskState) (s : Option String) (x : Nat)
    (hnd : t.config.pendingDatetimes.Nodup)
    (hdisj : ∀ y ∈ t.config.pendingDatetimes, y ∉ t.config.imagedDatetimes) :
    (∀ y ∈ (updateTaskState t s (some x)).config.pendingDatetimes,
        y ∉ (updateTaskState t s (some x)).config.imagedDatetimes) ∧
    (x ∈ t.config.pendingDatetimes →
        x ∉ (updateTaskState t s (some x)).config.pendingDatetimes ∧
        x ∈ (updateTaskState t s (some x)).config.imagedDatetimes) ∧
    (x ∉ t.config.pendingDatetimes →
        (updateTaskState t s (some x)).config.pendingDatetimes =
          t.config.pendingDatetimes ∧
        (updateTaskState t s (some x)).config.imagedDatetimes =
          t.config.imagedDatetimes) := by
  by_cases hx : x ∈ t.config.pendingDatetimes
  · rw [updateTaskState_config_of_mem s hx]
    refine ⟨?_, fun _ => ⟨?_, ?_⟩, fun hc => absurd hx hc⟩
    · intro y hy hyIm
      have hyP : y ∈ t.config.pendingDatetimes := List.mem_of_mem_erase hy
      rcases List.mem_append.mp (mem_sortNat.mp hyIm) with hIm | hXs
      · exact hdisj y hyP hIm
      · have hyx : y = x := List.mem_singleton.mp hXs
        subst hyx
        exact hnd.not_mem_erase hy
    · exact hnd.not_mem_erase
    · exact mem_sortNat.mpr (List.mem_append.mpr (Or.inr (List.mem_singleton.mpr rfl)))
  · rw [updateTaskState_config_of_not_mem s hx]
    exact ⟨hdisj, fun hc => absurd hc hx, fun _ => ⟨rfl, rfl⟩⟩

/-- Witness for C2: the hypotheses hold at the concrete task `witnessTask` and
time point `10`, and the conclusion follows by the theorem. -/
theorem update_task_moves_point_atomically_witness :
    witnessTask.config.pendingDatetimes.Nodup ∧
    (∀ y ∈ witnessTask.config.pendingDatetimes,
        y ∉ witnessTask.config.imagedDatetimes) ∧
    ((∀ y ∈ (updateTaskState witnessTask (some "waiting_for_next_run")
          (some 10)).config.pendingDatetimes,
        y ∉ (updateTaskState witnessTask (some "waiting_for_next_run")
          (some 10)).config.imagedDatetimes) ∧
      (10 ∈ witnessTask.config.pendingDatetimes →
        10 ∉ (updateTaskState witnessTask (some "waiting_for_next_run")
          (some 10)).config.pendingDatetimes ∧
        10 ∈ (updateTaskState witnessTask (some "waiting_for_next_run")
          (some 10)).config.imagedDatetimes) ∧
      (10 ∉ witnessTask.config.pendingDatetimes →
        (updateTaskState witnessTask (some "waiting_for_next_run")
            (some 10)).config.pendingDatetimes =
          witnessTask.config.pendingDatetimes ∧
        (updateTaskState witnessTask (some "waiting_for_next_run")
            (some 10)).config.imagedDatetimes =
          witnessTask.config.imagedDatetimes)) :=
  ⟨by decide, by decide,
    update_task_moves_point_atomically witnessTask (some "waiting_for_next_run") 10
      (by decide) (by decide)⟩

/-- C3: whenever `_execute_load_operation`, `_execute_unload_operation` or the
scan phase of `run_cycle` returns or raises — whatever the outcomes of the
remote calls — the process-wide critical-operation flag is false afterwards,
provided it was false on entry (it is set only for the duration of the arm
move or scan and cleared in a guaranteed-cleanup step). -/
theorem critical_flag_cleared_on_exit (envL : LoadEnv) (envU : UnloadEnv)
    (envS : ScanEnv) (micId : String) (st : SysState)
    (h : st.inCriticalOperation = false) :
    (executeLoad envL st).1.inCriticalOperation = false ∧
      (executeUnload envU micId st).1.inCriticalOperation = false ∧
      (scanPhase envS st).1.inCriticalOperation = false := by
  refine ⟨?_, ?_, ?_⟩
  · unfold executeLoad tryFinallyClearCritical loadBody
    split_ifs <;> first | exact h | rfl
  · unfold executeUnload tryFinallyClearCritical unloadBody
    rcases envU with ⟨mc, lq, e1, e2, e3, e4, e5⟩
    rcases lq with _ | loc <;>
      simp only [] <;> split_ifs <;> first | exact h | rfl | simp_all
  · rfl

/-- Witness for C3: the flag-false hypothesis holds at the concrete idle state
`witnessState`, and the conclusion follows by the theorem for the concrete
environments. -/
theorem critical_flag_cleared_on_exit_witness :
    witnessState.inCriticalOperation = false ∧
    ((executeLoad witnessLoadEnv witnessState).1.inCriticalOperation = false ∧
      (executeUnload witnessUnloadEnv "microscope-control-squid-1"
          witnessState).1.inCriticalOperation = false ∧
      (scanPhase witnessScanEnv witnessState).1.inCriticalOperation = false) :=
  ⟨by decide,
    critical_flag_cleared_on_exit witnessLoadEnv witnessUnloadEnv witnessScanEnv
      "microscope-control-squid-1" witnessState (by decide)⟩

/-- C4: in the health-check loop, while the critical-operation flag is true,
the third consecutive failure terminates the process after escalating retry
delays (10 s, 20 s); while the flag is false, a failure triggers a proxy
refresh and continued operation with the counter reset, and the process exits
only when the refresh itself has failed three consecutive times. -/
theorem health_check_escalation :
    healthTrace 0 [(false, true, true), (false, true, true), (false, true, true)] =
      [(1, HealthAction.criticalRetry 10), (2, HealthAction.criticalRetry 20),
        (3, HealthAction.exitProgram)] ∧
    (∀ f : Nat, healthStep f false false true = (0, HealthAction.refreshedAndContinue)) ∧
    healthTrace 0 [(false, false, false), (false, false, false), (false, false, false)] =
      [(1, HealthAction.refreshRetry), (2, HealthAction.refreshRetry),
        (3, HealthAction.exitProgram)] ∧
    (∀ (f : Nat) (p r : Bool), (healthStep f p false r).2 = HealthAction.exitProgram →
      r = false ∧ f + 1 ≥ 3) := by
  refine ⟨by decide, fun f => ?_, by decide, fun f p r hstep => ?_⟩
  · simp [healthStep]
  · rcases p with _ | _
    · rcases r with _ | _
      · by_cases hf : f + 1 ≥ 3 <;> simp_all [healthStep]
      · simp_all [healthStep]
    · simp_all [healthStep]

/-- C6: when scan-status polling reports `failed`, `_poll_scan_status` raises,
`run_cycle` attempts a best-effort cleanup unload and re-raises the original
scan error, and the scheduler marks the task (which still has pending points)
as `error`. -/
theorem scan_failure_triggers_cleanup_and_error (env : CycleEnv) (micId : String)
    (st : SysState) (ts : Tasks) (nm : String) (t : TaskState) (tp : Nat) (msg : String)
    (hload : (executeLoad env.load { st with sampleOnMicroscope := false }).2 =
      Except.ok ())
    (hstart : env.scan.scanStartOk = true)
    (hpoll : pollScan env.scan.pollResponses 0 =
      Except.error (CycleError.scanFailed msg))
    (hlook : ts.lookup nm = some t)
    (hpend : t.config.pendingDatetimes ≠ []) :
    (runCycle env micId st).2 = Except.error (CycleError.scanFailed msg) ∧
    "cleanup_unload" ∈ (runCycle env micId st).1.trace ∧
    (handleCycleResult ts nm tp (runCycle env micId st).2).lookup nm =
      some { config := t.config, status := "error" } := by
  have hrc : runCycle env micId st =
      cleanupAndRaise env micId
        (scanPhase env.scan
          (executeLoad env.load { st with sampleOnMicroscope := false }).1).1
        (CycleError.scanFailed msg) := by
    simp only [runCycle, hload,
      scanPhase_snd env.scan
        (executeLoad env.load { st with sampleOnMicroscope := false }).1 hstart,
      hpoll]
  rcases cleanupAndRaise_spec env micId
      (scanPhase env.scan
        (executeLoad env.load { st with sampleOnMicroscope := false }).1).1
      (CycleError.scanFailed msg) with ⟨h1, h2⟩
  rw [hrc]
  refine ⟨h1, h2, ?_⟩
  rw [h1]
  show (updateTask ts nm (some "error") none).lookup nm = _
  rw [lookup_updateTask_self (some "error") none hlook, updateTaskState_error]
  simp [hpend]

/-- Witness for C6: all hypotheses hold at the concrete cycle environment
(scan `failed` on the third poll) and one-task map, and the conclusion follows
by the theorem. -/
theorem scan_failure_triggers_cleanup_and_error_witness :
    (executeLoad witnessCycleEnv.load
        { witnessState with sampleOnMicroscope := false }).2 = Except.ok () ∧
    witnessCycleEnv.scan.scanStartOk = true ∧
    pollScan witnessCycleEnv.scan.pollResponses 0 =
      Except.error (CycleError.scanFailed "laser fault") ∧
    witnessTasksT1.lookup "T1" = some witnessTask ∧
    witnessTask.config.pendingDatetimes ≠ [] ∧
    ((runCycle witnessCycleEnv "microscope-control-squid-1" witnessState).2 =
        Except.error (CycleError.scanFailed "laser fault") ∧
      "cleanup_unload" ∈
        (runCycle witnessCycleEnv "microscope-control-squid-1" witnessState).1.trace ∧
      (handleCycleResult witnessTasksT1 "T1" 10
          (runCycle witnessCycleEnv "microscope-control-squid-1" witnessState).2).lookup
          "T1" =
        some { config := witnessTask.config, status := "error" }) :=
  ⟨by decide, by decide, by decide, by decide, by decide,
    scan_failure_triggers_cleanup_and_error witnessCycleEnv
      "microscope-control-squid-1" witnessState witnessTasksT1 "T1" witnessTask 10
      "laser fault" (by decide) (by decide) (by decide) (by decide) (by decide)⟩

/-- Witness for C4: the idle-refresh conjunct of the theorem applied at a
concrete failure count. -/
theorem health_check_escalation_witness :
    healthStep 0 false false true = (0, HealthAction.refreshedAndContinue) :=
  health_check_escalation.2.1 0

/-- Counterexample to C5: with one request in the queue and the worker
cancelled at the queue-get suspension point (as `_stop_transport_worker` does,
without draining the queue), the worker exits having resolved no completion
handle at all — the queued request is abandoned. -/
theorem transport_worker_abandons_queued_request :
    workerLoop [(witnessRequest, witnessReqEnv)] 0 = [] ∧
    [(witnessRequest, witnessReqEnv)].length = 1 := by decide

theorem processRequest_length (req : TransportRequest) (env : ReqEnv) :
    (processRequest req env).length = 1 := by
  unfold processRequest
  rcases req.microscopeId with _ | mid
  · rfl
  · split_ifs <;> first | rfl | (rcases env.opResult with e | u <;> rfl)

/-- C5 amended: every request the worker dequeues has its completion handle
resolved exactly once — with success exactly when the load/unload operation
succeeds, and with the encountered error otherwise, even on internal fault
such as a missing microscope id or failed connection setup; but the worker
resolves only the requests dequeued before cancellation
(`min cancelAfter queue.length` of them), and requests still in the queue when
the worker is cancelled are never resolved. -/
theorem transport_worker_resolves_dequeued_once
    (queue : List (TransportRequest × ReqEnv)) (cancelAfter : Nat) :
    (∀ rs ∈ workerLoop queue cancelAfter, rs.length = 1) ∧
    (workerLoop queue cancelAfter).length = min cancelAfter queue.length ∧
    (∀ (req : TransportRequest) (env : ReqEnv),
      (req.action = "load" ∨ req.action = "unload") →
      req.microscopeId.isSome →
      ¬(env.needSetup ∧ env.setupRaises) →
      env.serviceConnected = true →
      processRequest req env =
        [match env.opResult with
         | Except.ok _ => Resolution.success
         | Except.error e => Resolution.failure e]) := by
  refine ⟨?_, ?_, ?_⟩
  · induction queue generalizing cancelAfter with
    | nil =>
      intro rs hrs
      simp [workerLoop] at hrs
    | cons q rest ih =>
      intro rs hrs
      rcases cancelAfter with _ | k
      · simp [workerLoop] at hrs
      · rcases List.mem_cons.mp (by simpa [workerLoop] using hrs) with h | h
        · rw [h]
          exact processRequest_length q.1 q.2
        · exact ih k rs h
  · induction queue generalizing cancelAfter with
    | nil => simp [workerLoop]
    | cons q rest ih =>
      rcases cancelAfter with _ | k
      · simp [workerLoop]
      · simp [workerLoop, ih k, Nat.succ_min_succ]
  · intro req env hact hmid hsetup hconn
    rcases hmidEq : req.microscopeId with _ | mid
    · rw [hmidEq] at hmid
      cases hmid
    · unfold processRequest
      rw [hmidEq]
      rw [if_neg hsetup, if_neg (by simp [hconn]), if_pos hact]
      rcases env.opResult with e | u <;> rfl

/-- Witness for C5 (amended): at a concrete one-request queue processed before
cancellation, the worker resolves it exactly once with success. -/
theorem transport_worker_resolves_dequeued_once_witness :
    (∀ rs ∈ workerLoop [(witnessRequest, witnessReqEnv)] 1, rs.length = 1) ∧
    processRequest witnessRequest witnessReqEnv = [Resolution.success] := by
  rcases transport_worker_resolves_dequeued_once [(witnessRequest, witnessReqEnv)] 1
    with ⟨h1, _h2, h3⟩
  refine ⟨h1, ?_⟩
  have := h3 witnessRequest witnessReqEnv (Or.inl (by decide)) (by decide)
    (by decide) (by decide)
  simpa using this

/-! ### Reconcile invariant lemmas -/

theorem forceCompleted_invariant (pend : List Nat) (s : String) (hp : pend = []) :
    forceCompleted pend s = "completed" ∨ forceCompleted pend s = "uploading" := by
  unfold forceCompleted
  split_ifs with h
  · exact Or.inl rfl
  · rw [not_and_or, not_and_or] at h
    rcases h with h | h | h
    · exact absurd hp h
    · exact Or.inl (not_not.mp h)
    · exact Or.inr (not_not.mp h)

theorem mergeOne_eq_setTask (file : List RawSample) (ts : Tasks) (n : String)
    (cfg : TaskConfig) :
    ∃ v : TaskState, mergeOne file ts n cfg = setTask ts n v ∧ v.config = cfg ∧
      statusInvariant v := by
  unfold mergeOne
  rcases ts.lookup n with _ | old
  · exact ⟨_, rfl, rfl, fun hp => forceCompleted_invariant _ _ hp⟩
  · exact ⟨_, rfl, rfl, fun hp => forceCompleted_invariant _ _ hp⟩

theorem mergeFold_invariant (file : List RawSample) (l : List (String × TaskConfig))
    (state : Tasks) (hnd : (state.map Prod.fst).Nodup)
    (hcond : ∀ p ∈ state, p.1 ∈ l.map Prod.fst ∨ statusInvariant p.2) :
    ∀ p ∈ l.foldl (mergeStep file) state, statusInvariant p.2 := by
  induction l generalizing state with
  | nil =>
    intro p hp
    rcases hcond p hp with h | h
    · cases h
    · exact h
  | cons q rest ih =>
    rcases q with ⟨n, cfg⟩
    rcases mergeOne_eq_setTask file state n cfg with ⟨v, hv, _hvc, hvinv⟩
    rw [List.foldl_cons]
    rw [show mergeStep file state (n, cfg) = setTask state n v from hv]
    apply ih (setTask state n v) (nodup_keys_setTask hnd)
    intro p hp
    rcases mem_setTask hp with h | h
    · rw [h]
      exact Or.inr hvinv
    · rcases hcond p h with h1 | h1
      · rw [List.map_cons] at h1
        rcases List.mem_cons.mp h1 with h2 | h2
        · have : p = (n, v) := eq_of_mem_setTask_of_key hnd hp h2
          rw [this]
          exact Or.inr hvinv
        · exact Or.inl h2
      · exact Or.inr h1

/-- C7: after a reconcile pass every task with an empty pending set has status
`completed` or `uploading`; and a task update preserves this invariant across
the whole task map (establishing it outright for the task it touches). -/
theorem empty_pending_only_completed_or_uploading (file : List RawSample) (ts : Tasks)
    (a : Option String) (hnd : (ts.map Prod.fst).Nodup) :
    (∀ p ∈ (reconcile file ts a).tasks,
        p.2.config.pendingDatetimes = [] →
          p.2.status = "completed" ∨ p.2.status = "uploading") ∧
    (∀ (n : String) (s : Option String) (tp : Option Nat),
        (∀ p ∈ ts, p.2.config.pendingDatetimes = [] →
            p.2.status = "completed" ∨ p.2.status = "uploading") →
        ∀ p ∈ updateTask ts n s tp,
          p.2.config.pendingDatetimes = [] →
            p.2.status = "completed" ∨ p.2.status = "uploading") := by
  constructor
  · intro p hp
    simp only [reconcile] at hp
    refine mergeFold_invariant file (newTaskConfigs file)
      (ts.filter (fun q => q.1 ∈ (newTaskConfigs file).map Prod.fst)) ?_ ?_ p hp
    · exact hnd.sublist ((List.filter_sublist _).map Prod.fst)
    · intro q hq
      exact Or.inl (of_decide_eq_true ((List.mem_filter.mp hq).2))
  · intro n s tp hinv p hp hpend
    rcases mem_updateTask hp with h | ⟨q, hq, hpq⟩
    · exact hinv p h hpend
    · rw [hpq] at hpend ⊢
      exact updateTaskState_invariant q.2 s tp hpend

/-- Witness for C7: the key-uniqueness hypothesis holds at the concrete
one-task map, and the conclusion follows by the theorem. -/
theorem empty_pending_only_completed_or_uploading_witness :
    (witnessTasksT1.map Prod.fst).Nodup ∧
    ((∀ p ∈ (reconcile (writeTasks witnessTasksT1) witnessTasksT1 none).tasks,
        p.2.config.pendingDatetimes = [] →
          p.2.status = "completed" ∨ p.2.status = "uploading") ∧
      (∀ (n : String) (s : Option String) (tp : Option Nat),
        (∀ p ∈ witnessTasksT1, p.2.config.pendingDatetimes = [] →
            p.2.status = "completed" ∨ p.2.status = "uploading") →
        ∀ p ∈ updateTask witnessTasksT1 n s tp,
          p.2.config.pendingDatetimes = [] →
            p.2.status = "completed" ∨ p.2.status = "uploading")) :=
  ⟨by decide,
    empty_pending_only_completed_or_uploading (writeTasks witnessTasksT1)
      witnessTasksT1 none (by decide)⟩

/-- Counterexample to C9: offline post-processing for `exp1` whose delegated
call fails leaves the matching task (with empty pending set) at status
`completed`, not `error` — the task-update rule forces `error` to `completed`
whenever no pending points remain. -/
theorem offline_processing_failure_not_pinned_to_error :
    (processTimelapseOffline "exp1" uploadTasks true
        (Except.error "upload failed")).1.lookup "exp1-A" =
      some { config := uploadTask.config, status := "completed" } ∧
    ("completed" : String) ≠ "error" := by
  constructor
  · rfl
  · decide

/-- C9 amended: the offline post-processing call pins every task whose name
contains the experiment id to `uploading`, and after the delegated call it
sets each matching task's status through the task-update rule: on success
`completed` when no pending points remain and `pending` otherwise; on failure
`error` when pending points remain and `completed` otherwise. -/
theorem offline_processing_status_transitions (experimentId : String) (ts : Tasks)
    (n : String) (t : TaskState) (res : Except String Unit)
    (hnd : (ts.map Prod.fst).Nodup) (hmem : (n, t) ∈ ts)
    (hmatch : containsSub experimentId n = true) :
    (((ts.map Prod.fst).filter (fun m => containsSub experimentId m)).foldl
        (fun acc m => updateTask acc m (some "uploading") none) ts).lookup n =
      some { config := t.config, status := "uploading" } ∧
    (processTimelapseOffline experimentId ts true res).1.lookup n =
      some { config := t.config
             status :=
               match res with
               | Except.ok _ =>
                 if t.config.pendingDatetimes = [] then "completed" else "pending"
               | Except.error _ =>
                 if t.config.pendingDatetimes = [] then "completed" else "error" } := by
  have hkey : n ∈ ts.map Prod.fst := List.mem_map.mpr ⟨(n, t), hmem, rfl⟩
  have hmatching : n ∈ (ts.map Prod.fst).filter (fun m => containsSub experimentId m) :=
    List.mem_filter.mpr ⟨hkey, hmatch⟩
  have hmnd : ((ts.map Prod.fst).filter (fun m => containsSub experimentId m)).Nodup :=
    hnd.filter _
  have hlook : ts.lookup n = some t := lookup_eq_some_of_mem hnd hmem
  have hpin :
      (((ts.map Prod.fst).filter (fun m => containsSub experimentId m)).foldl
          (fun acc m => updateTask acc m (some "uploading") none) ts).lookup n =
        some { config := t.config, status := "uploading" } := by
    rw [lookup_foldl_updateTask_mem _ _ _ _ hmnd hmatching hlook,
      updateTaskState_uploading]
  refine ⟨hpin, ?_⟩
  unfold processTimelapseOffline
  rw [if_neg (List.ne_nil_of_mem hmatching)]
  rw [if_neg (by simp)]
  rcases res with e | u
  · rw [lookup_foldl_updateTask_mem _ _ _ _ hmnd hmatching hpin, updateTaskState_error]
  · rw [lookup_foldl_updateTask_mem _ _ _ _ hmnd hmatching hpin,
      updateTaskState_completed]

/-- Witness for C9 (amended): the hypotheses hold at the concrete finished
task `exp1-A` with a failing delegated call, and the conclusion follows by the
theorem. -/
theorem offline_processing_status_transitions_witness :
    (uploadTasks.map Prod.fst).Nodup ∧
    ("exp1-A", uploadTask) ∈ uploadTasks ∧
    containsSub "exp1" "exp1-A" = true ∧
    ((((uploadTasks.map Prod.fst).filter (fun m => containsSub "exp1" m)).foldl
        (fun acc m => updateTask acc m (some "uploading") none) uploadTasks).lookup
        "exp1-A" =
      some { config := uploadTask.config, status := "uploading" } ∧
    (processTimelapseOffline "exp1" uploadTasks true
        (Except.error "upload failed")).1.lookup "exp1-A" =
      some { config := uploadTask.config
             status :=
               if uploadTask.config.pendingDatetimes = [] then "completed"
               else "error" }) :=
  ⟨by decide, by decide, by decide,
    offline_processing_status_transitions "exp1" uploadTasks "exp1-A" uploadTask
      (Except.error "upload failed") (by decide) (by decide) (by decide)⟩

/-- C1: whatever the iteration order of the task map, if two schedulable tasks
(status not terminal-for-this-tick, non-empty pending set) are due with
earliest pending points `T1 < T2 ≤ now`, the scheduler selects a candidate
whose time point is at most `T1` — in particular never the `T2` candidate. -/
theorem scheduler_picks_globally_earliest (now : Nat) (ts : Tasks)
    (n1 n2 : String) (T1 T2 : Nat)
    (h1 : (n1, T1) ∈ eligibleTasks now ts)
    (h2 : (n2, T2) ∈ eligibleTasks now ts)
    (hlt : T1 < T2) :
    ∃ m T, selectNextTask now ts = some (m, T) ∧ T ≤ T1 ∧ T < T2 ∧
      (m, T) ∈ eligibleTasks now ts ∧ (m, T) ≠ (n2, T2) := by
  unfold selectNextTask
  have hmem : (n1, T1) ∈ List.insertionSort byTimePoint (eligibleTasks now ts) :=
    (List.mem_insertionSort byTimePoint).mpr h1
  rcases hS : List.insertionSort byTimePoint (eligibleTasks now ts) with _ | ⟨s, S'⟩
  · rw [hS] at hmem
    cases hmem
  · have hsort := List.sorted_insertionSort byTimePoint (eligibleTasks now ts)
    rw [hS] at hsort hmem
    have hmin : ∀ y ∈ S', byTimePoint s y := (List.sorted_cons.mp hsort).1
    have hsT1 : s.2 ≤ T1 := by
      rcases List.mem_cons.mp hmem with h | h
      · rw [← h]
      · exact hmin _ h
    have hsE : s ∈ eligibleTasks now ts := by
      have : s ∈ List.insertionSort byTimePoint (eligibleTasks now ts) := by
        rw [hS]
        exact List.mem_cons_self _ _
      exact (List.mem_insertionSort byTimePoint).mp this
    refine ⟨s.1, s.2, rfl, hsT1, lt_of_le_of_lt hsT1 hlt, hsE, ?_⟩
    intro hEq
    have hT2 : s.2 = T2 := congrArg Prod.snd hEq
    omega

/-- Witness for C1: both tasks are eligible at time 30 with `10 < 20`, and the
theorem yields the selected candidate; the map lists the later task first. -/
theorem scheduler_picks_globally_earliest_witness :
    ("a", 10) ∈ eligibleTasks 30 witnessSchedTasks ∧
    ("b", 20) ∈ eligibleTasks 30 witnessSchedTasks ∧
    (10 : Nat) < 20 ∧
    (∃ m T, selectNextTask 30 witnessSchedTasks = some (m, T) ∧ T ≤ 10 ∧ T < 20 ∧
      (m, T) ∈ eligibleTasks 30 witnessSchedTasks ∧ (m, T) ≠ ("b", 20)) :=
  ⟨by decide, by decide, by decide,
    scheduler_picks_globally_earliest 30 witnessSchedTasks "a" "b" 10 20
      (by decide) (by decide) (by decide)⟩

/-! ### Round-trip lemmas for the reconcile pass -/

theorem parseSample_writeTask (n : String) (t : TaskState) (hn : n ≠ "")
    (hp : sortNat t.config.pendingDatetimes = t.config.pendingDatetimes)
    (hi : sortNat t.config.imagedDatetimes = t.config.imagedDatetimes) :
    parseSample (writeTask n t) = some (n, t.config) := by
  unfold parseSample writeTask
  simp only [if_neg hn]
  rw [if_neg (by simp)]
  rw [hp, hi, hp, hi]
  rfl

theorem upsert_of_not_mem {l : List (String × TaskConfig)} {k : String}
    (v : TaskConfig) (h : k ∉ l.map Prod.fst) :
    upsert l k v = l ++ [(k, v)] := by
  induction l with
  | nil => rfl
  | cons q rest ih =>
    rcases q with ⟨k', v'⟩
    simp only [List.map_cons, List.mem_cons] at h
    push_neg at h
    simp [upsert, Ne.symm h.1, ih h.2]

theorem foldl_parseStep_writeTasks (ts : Tasks) (acc : List (String × TaskConfig))
    (hnd : (ts.map Prod.fst).Nodup)
    (hwf : ∀ p ∈ ts, p.1 ≠ "" ∧ wellFormedTask p.2)
    (hdisj : ∀ m ∈ ts.map Prod.fst, m ∉ acc.map Prod.fst) :
    (writeTasks ts).foldl parseStep acc =
      acc ++ ts.map (fun p => (p.1, p.2.config)) := by
  induction ts generalizing acc with
  | nil => simp [writeTasks]
  | cons q rest ih =>
    rcases q with ⟨n, t⟩
    simp only [List.map_cons, List.nodup_cons] at hnd
    have hq := hwf (n, t) (List.mem_cons_self _ _)
    have hstep : parseStep acc (writeTask n t) = acc ++ [(n, t.config)] := by
      unfold parseStep
      rw [parseSample_writeTask n t hq.1 hq.2.1 hq.2.2.1]
      exact upsert_of_not_mem t.config (hdisj n (List.mem_cons_self _ _))
    have hdisj' : ∀ m ∈ rest.map Prod.fst,
        m ∉ (acc ++ [(n, t.config)]).map Prod.fst := by
      intro m hm
      simp only [List.map_append, List.mem_append]
      push_neg
      constructor
      · exact hdisj m (List.mem_cons_of_mem _ hm)
      · intro hcontra
        simp only [List.map_cons, List.map_nil, List.mem_singleton] at hcontra
        exact hnd.1 (hcontra ▸ hm)
    show ((writeTask n t :: writeTasks rest).foldl parseStep acc) = _
    rw [List.foldl_cons, hstep,
      ih (acc ++ [(n, t.config)]) hnd.2
        (fun p hp => hwf p (List.mem_cons_of_mem _ hp)) hdisj']
    simp

theorem newTaskConfigs_writeTasks (ts : Tasks)
    (hnd : (ts.map Prod.fst).Nodup)
    (hwf : ∀ p ∈ ts, p.1 ≠ "" ∧ wellFormedTask p.2) :
    newTaskConfigs (writeTasks ts) = ts.map (fun p => (p.1, p.2.config)) := by
  unfold newTaskConfigs
  rw [foldl_parseStep_writeTasks ts [] hnd hwf (by simp)]
  simp

theorem keys_map_config (ts : Tasks) :
    (ts.map (fun p => (p.1, p.2.config))).map Prod.fst = ts.map Prod.fst := by
  induction ts with
  | nil => rfl
  | cons q rest ih => simp [ih]

theorem findOpStatus_writeTasks {ts : Tasks} {n : String} {t : TaskState}
    (hnd : (ts.map Prod.fst).Nodup) (hmem : (n, t) ∈ ts) :
    findOpStatus (writeTasks ts) n = t.status := by
  induction ts with
  | nil => cases hmem
  | cons q rest ih =>
    rcases q with ⟨k, w⟩
    simp only [List.map_cons, List.nodup_cons] at hnd
    rcases List.mem_cons.mp hmem with h | h
    · cases h
      unfold findOpStatus writeTasks
      simp [writeTask]
    · have hk : k ≠ n := by
        intro hkn
        subst hkn
        exact hnd.1 (List.mem_map.mpr ⟨(k, t), h, rfl⟩)
      unfold findOpStatus writeTasks at ih ⊢
      simp only [List.map_cons, List.find?_cons]
      rw [show (decide ((writeTask k w).name = some n)) = false by
        simp [writeTask, hk]]
      exact ih hnd.2 h

theorem currentActualStatus_of_wf {t : TaskState} (hwf : wellFormedTask t) :
    currentActualStatus t.status t.config.pendingDatetimes = t.status := by
  unfold currentActualStatus
  rcases hwf with ⟨_, _, hc, hu⟩
  by_cases hp : t.config.pendingDatetimes = []
  · rw [if_pos hp]
    rcases hu hp with h | h <;> rw [h] <;> simp
  · rw [if_neg hp, if_neg (fun hcc => hp (hc hcc))]

theorem forceCompleted_of_wf {t : TaskState} (hwf : wellFormedTask t) :
    forceCompleted t.config.pendingDatetimes t.status = t.status := by
  unfold forceCompleted
  rcases hwf with ⟨_, _, _, hu⟩
  by_cases hp : t.config.pendingDatetimes = []
  · rcases hu hp with h | h <;> rw [if_neg (by simp [h])]
  · rw [if_neg (by simp [hp])]

theorem mergeOne_writeTasks_self {ts : Tasks} {n : String} {t : TaskState}
    (hnd : (ts.map Prod.fst).Nodup) (hmem : (n, t) ∈ ts)
    (hwf : wellFormedTask t) :
    mergeOne (writeTasks ts) ts n t.config = ts := by
  have hop : findOpStatus (writeTasks ts) n = t.status :=
    findOpStatus_writeTasks hnd hmem
  have hactual : currentActualStatus t.status t.config.pendingDatetimes = t.status :=
    currentActualStatus_of_wf hwf
  unfold mergeOne
  simp only [lookup_eq_some_of_mem hnd hmem, hop, hactual]
  rw [if_neg (fun hcontra => by
    rcases hcontra.1 with h | h | h | h | h | h | h <;> exact h rfl)]
  rw [forceCompleted_of_wf hwf]
  exact setTask_eq_self hnd hmem

theorem mergeFold_id (file : List RawSample) (l : List (String × TaskConfig))
    (ts : Tasks) (h : ∀ q ∈ l, mergeOne file ts q.1 q.2 = ts) :
    l.foldl (mergeStep file) ts = ts := by
  induction l with
  | nil => rfl
  | cons q rest ih =>
    rw [List.foldl_cons]
    rw [show mergeStep file ts q = ts from h q (List.mem_cons_self _ _)]
    exact ih (fun q' hq' => h q' (List.mem_cons_of_mem _ hq'))

theorem keys_mergeFold_subset (file : List RawSample)
    (l : List (String × TaskConfig)) (state : Tasks) {m : String}
    (h : m ∈ (l.foldl (mergeStep file) state).map Prod.fst) :
    m ∈ state.map Prod.fst ∨ m ∈ l.map Prod.fst := by
  induction l generalizing state with
  | nil => exact Or.inl h
  | cons q rest ih =>
    rw [List.foldl_cons] at h
    rcases mergeOne_eq_setTask file state q.1 q.2 with ⟨v, hv, _, _⟩
    rw [show mergeStep file state q = setTask state q.1 v from hv] at h
    rcases ih (setTask state q.1 v) h with h1 | h1
    · rcases keys_setTask_subset h1 with h2 | h2
      · exact Or.inl h2
      · exact Or.inr (List.mem_cons.mpr (Or.inl h2))
    · exact Or.inr (List.mem_cons_of_mem _ h1)

/-- C8: for a well-formed task map, writing every task's state to the config
file and reconciling against the written file reproduces exactly the same
task map (statuses and time-point sets), leaves the active-task pointer
untouched, and writes back identical file content — reconcile is idempotent
with no external edits. -/
theorem write_read_roundtrip_idempotent (ts : Tasks) (a : Option String)
    (hwf : wellFormed ts) :
    reconcile (writeTasks ts) ts a =
      { tasks := ts, activeTask := a, fileAfter := writeTasks ts } := by
  rcases hwf with ⟨hnd, hwfAll⟩
  have hcfgs : newTaskConfigs (writeTasks ts) = ts.map (fun p => (p.1, p.2.config)) :=
    newTaskConfigs_writeTasks ts hnd hwfAll
  have hkeep : (newTaskConfigs (writeTasks ts)).map Prod.fst = ts.map Prod.fst := by
    rw [hcfgs, keys_map_config]
  have hall : ∀ p ∈ ts, p.1 ∈ (newTaskConfigs (writeTasks ts)).map Prod.fst := by
    intro p hp
    rw [hkeep]
    exact List.mem_map.mpr ⟨p, hp, rfl⟩
  have hrem : ((ts.map Prod.fst).filter
      (fun n => ¬ n ∈ (newTaskConfigs (writeTasks ts)).map Prod.fst)) = [] := by
    rw [List.filter_eq_nil]
    intro m hm
    simp [hkeep, hm]
  have hts1 : ts.filter
      (fun p => p.1 ∈ (newTaskConfigs (writeTasks ts)).map Prod.fst) = ts := by
    rw [List.filter_eq_self]
    intro p hp
    exact decide_eq_true (hall p hp)
  have hfold : (newTaskConfigs (writeTasks ts)).foldl
      (mergeStep (writeTasks ts)) ts = ts := by
    apply mergeFold_id
    intro q hq
    rw [hcfgs] at hq
    rcases List.mem_map.mp hq with ⟨p, hp, hpq⟩
    rcases p with ⟨n, t⟩
    cases hpq.symm
    exact mergeOne_writeTasks_self hnd hp (hwfAll (n, t) hp).2
  simp only [reconcile, hrem, hts1, hfold]
  have hfile : (if ¬newTaskConfigs (writeTasks ts) = [] ∨ ¬([] : List String) = []
      then writeTasks ts else writeTasks ts) = writeTasks ts := by
    split_ifs <;> rfl
  rcases a with _ | x <;>
    simp [ReconcileResult.mk.injEq, hfile]

/-- Witness for C8: the well-formedness hypothesis holds at the concrete
one-task map, and round-trip plus idempotence follow by the theorem. -/
theorem write_read_roundtrip_idempotent_witness :
    wellFormed witnessTasksT1 ∧
    reconcile (writeTasks witnessTasksT1) witnessTasksT1 (some "T1") =
      { tasks := witnessTasksT1, activeTask := some "T1",
        fileAfter := writeTasks witnessTasksT1 } :=
  ⟨by decide,
    write_read_roundtrip_idempotent witnessTasksT1 (some "T1") (by decide)⟩

/-- C10: a file entry with a missing required settings key or a malformed or
timezone-qualified time string is skipped during parsing; an in-memory task of
that name (with no other valid entry claiming the name) is dropped from
memory, the active-task pointer is cleared if it pointed there, and the
write-back persists only the remaining tasks — the malformed entry is erased
from the config file. -/
theorem malformed_entry_dropped_and_erased (file : List RawSample) (ts : Tasks)
    (a : Option String) (x : String) (e : RawSample) (st : RawSettings)
    (he : e ∈ file) (hname : e.name = some x) (hset : e.settings = some st)
    (hbad : st.missingRequiredKey = true ∨ st.badTimeString = true)
    (hmem : x ∈ ts.map Prod.fst)
    (hkeys : x ∉ (newTaskConfigs file).map Prod.fst) :
    x ∉ (reconcile file ts a).tasks.map Prod.fst ∧
    (a = some x → (reconcile file ts a).activeTask = none) ∧
    (∀ e' ∈ (reconcile file ts a).fileAfter, e'.name ≠ some x) := by
  have hxrem : x ∈ (ts.map Prod.fst).filter
      (fun n => ¬ n ∈ (newTaskConfigs file).map Prod.fst) :=
    List.mem_filter.mpr ⟨hmem, by simp [hkeys]⟩
  have hts2keys : x ∉ ((newTaskConfigs file).foldl (mergeStep file)
      (ts.filter (fun p => p.1 ∈ (newTaskConfigs file).map Prod.fst))).map
        Prod.fst := by
    intro hc
    rcases keys_mergeFold_subset file _ _ hc with h | h
    · rcases List.mem_map.mp h with ⟨p, hp, hpx⟩
      have hpk := of_decide_eq_true ((List.mem_filter.mp hp).2)
      exact hkeys (hpx ▸ hpk)
    · exact hkeys h
  refine ⟨?_, ?_, ?_⟩
  · simp only [reconcile]
    exact hts2keys
  · intro ha
    simp only [reconcile, ha]
    rw [if_pos hxrem]
  · intro e' he' hcontra
    simp only [reconcile] at he'
    rw [if_pos (Or.inr (fun hnil => by rw [hnil] at hxrem; cases hxrem))] at he'
    rcases List.mem_map.mp he' with ⟨p, hp, hpe⟩
    have hpx : p.1 = x := by
      have : (writeTask p.1 p.2).name = some x := hpe ▸ hcontra
      simpa [writeTask] using this
    exact hts2keys (hpx ▸ List.mem_map.mpr ⟨p, hp, rfl⟩)

/-- Witness for C10: the hypotheses hold for the concrete malformed file
against the one-task map with the active pointer on the doomed task, and the
conclusion follows by the theorem. -/
theorem malformed_entry_dropped_and_erased_witness :
    malformedSample ∈ malformedFile ∧
    malformedSample.name = some "sample-x" ∧
    "sample-x" ∈ tasksWithX.map Prod.fst ∧
    "sample-x" ∉ (newTaskConfigs malformedFile).map Prod.fst ∧
    ("sample-x" ∉
        (reconcile malformedFile tasksWithX (some "sample-x")).tasks.map Prod.fst ∧
      (some "sample-x" = some "sample-x" →
        (reconcile malformedFile tasksWithX (some "sample-x")).activeTask = none) ∧
      (∀ e' ∈ (reconcile malformedFile tasksWithX (some "sample-x")).fileAfter,
        e'.name ≠ some "sample-x")) :=
  ⟨by decide, by decide, by decide, by decide,
    malformed_entry_dropped_and_erased malformedFile tasksWithX (some "sample-x")
      "sample-x" malformedSample
      { missingRequiredKey := true
        badTimeString := false
        pendingTimePoints := [3]
        imagedTimePoints := []
        incubatorSlot := 1
        allocatedMicroscope := some "microscope-control-squid-1"
        imagingZone := 0
        nx := 1
        ny := 1 }
      (by decide) (by decide) (by decide) (Or.inl (by decide)) (by decide)
      (by decide)⟩

end Reef
